import Mathlib

/-!
Verification of the powerlawn tile-painting game core (src/game.py).

The Python source is shallowly embedded: pure fragments become Lean
functions over exact arithmetic (Python floats are modelled as rationals,
Python ints as integers), stateful updates become explicit state passing,
and fallible list indexing returns an Option.  Names follow the source.
-/

namespace Powerlawn

/-! ## Python semantics helpers -/

/-- Python `int(x)` applied to a float: truncation toward zero. -/
def pyTrunc (q : ℚ) : ℤ := if 0 ≤ q then ⌊q⌋ else -⌊-q⌋

/-- Python `round(x, 3)`.  On the values the game produces this is rounding
to the nearest multiple of 1/1000 (float round-half-even differs from this
only at exact half-thousandth ties, which do not arise here). -/
def pyRound3 (q : ℚ) : ℚ := (round (q * 1000) : ℚ) / 1000

/-- Python list indexing `l[i]` with an int index: non-negative indices read
from the front, negative indices of magnitude at most the length wrap to the
back, anything else raises IndexError (modelled as `none`). -/
def pyListGet {α : Type} (l : List α) (i : ℤ) : Option α :=
  if 0 ≤ i then l.get? i.toNat
  else if 0 ≤ i + l.length then l.get? (i + (l.length : ℤ)).toNat
  else none

/-- Python `del l[i]` for a non-negative index: removes the element when the
index is in range, raises IndexError (modelled as `none`) otherwise. -/
def pyDelAt {α : Type} (l : List α) (i : ℕ) : Option (List α) :=
  if i < l.length then some (l.eraseIdx i) else none

/-- Fixed framerate constant of the game (`TARGET_FRAMERATE = 60`). -/
def TARGET_FRAMERATE : ℕ := 60

/-! ## Stencil baker (`weight_point_in_circle`, `Game.bake_path_quadrant`) -/

/-- Embedding of `weight_point_in_circle(point, center, radius, corner_threshold)`.
Python `round` applied to the int `dist_squared` is the identity; it is kept
as the rational rounding of that integer to mirror the source line. -/
def weight_point_in_circle (point center : ℤ × ℤ) (radius : ℤ)
    (corner_threshold : ℚ) : ℕ :=
  let diff_x : ℤ := |center.1 - point.1|
  let diff_y : ℤ := |center.2 - point.2|
  if diff_y > radius ∨ diff_x > radius then 0
  else
    let dist_squared : ℤ := diff_x * diff_x + diff_y * diff_y
    let radius_squared : ℤ := radius * radius
    let rounded_distance : ℤ := round ((dist_squared : ℚ))
    if rounded_distance < radius_squared then 1
    else if (rounded_distance : ℚ) < (radius_squared : ℚ) * corner_threshold ∧
        diff_x < radius then 2
    else 0

/-- Embedding of `Game.bake_path_quadrant`: one quadrant of the path template,
row index `ri`, column index `ci`, both running over `0..path_radius`.
The source call leaves `corner_threshold` at its default `1.5`. -/
def bake_path_quadrant (path_radius : ℕ) : List (List ℕ) :=
  (List.range (path_radius + 1)).map fun ri : ℕ =>
    (List.range (path_radius + 1)).map fun ci : ℕ =>
      weight_point_in_circle ((ci : ℤ), (ri : ℤ)) (0, 0) (path_radius : ℤ) (3/2)

/-- Modelled from the spec (section 4.1): the classification rule for a
template cell, written exactly as the spec states it (Empty when an offset
exceeds the radius; Full when the rounded squared distance is below the
squared radius; Half when it is below the squared radius scaled by the corner
threshold and the x offset is strictly inside the radius; Empty otherwise). -/
def specClassify (radius : ℕ) (cornerThreshold : ℚ) (ci ri : ℕ) : ℕ :=
  if (ci : ℤ) > (radius : ℤ) ∨ (ri : ℤ) > (radius : ℤ) then 0
  else
    let distSq : ℤ := (ci : ℤ) * (ci : ℤ) + (ri : ℤ) * (ri : ℤ)
    let radiusSq : ℤ := (radius : ℤ) * (radius : ℤ)
    let roundedDist : ℤ := round ((distSq : ℚ))
    if roundedDist < radiusSq then 1
    else if (roundedDist : ℚ) < (radiusSq : ℚ) * cornerThreshold ∧
        (ci : ℤ) < (radius : ℤ) then 2
    else 0

theorem weight_eq_specClassify (radius ci ri : ℕ) (θ : ℚ) :
    weight_point_in_circle ((ci : ℤ), (ri : ℤ)) (0, 0) (radius : ℤ) θ =
      specClassify radius θ ci ri := by
  unfold weight_point_in_circle specClassify
  simp only [zero_sub, abs_neg, Nat.abs_cast, or_comm]

/-- Concrete evaluation of the bake at the game's configuration
(radius 2, corner threshold 1.5). -/
theorem bake2_eval : bake_path_quadrant 2 = [[1, 1, 0], [1, 1, 0], [2, 2, 0]] := by
  simp only [bake_path_quadrant, weight_point_in_circle, List.range_succ, List.range_zero]
  norm_num [round_intCast]

/-- C2: the baked quadrant classifies every in-range offset exactly per the
spec rule, and the bake is deterministic: at the default configuration
(radius 2, threshold 1.5) it is the fixed template below. -/
theorem bake_path_quadrant_matches_spec :
    (∀ (radius ci ri : ℕ), ci ≤ radius → ri ≤ radius →
      ((bake_path_quadrant radius).getD ri []).getD ci 0 =
        specClassify radius (3/2) ci ri)
    ∧ bake_path_quadrant 2 = [[1, 1, 0], [1, 1, 0], [2, 2, 0]] := by
  constructor
  · intro radius ci ri hci hri
    have hri2 : ri < radius + 1 := Nat.lt_succ_of_le hri
    have hci2 : ci < radius + 1 := Nat.lt_succ_of_le hci
    have h1 : (bake_path_quadrant radius).getD ri [] =
        (List.range (radius + 1)).map fun ci : ℕ =>
          weight_point_in_circle ((ci : ℤ), (ri : ℤ)) (0, 0) (radius : ℤ) (3/2) := by
      unfold bake_path_quadrant
      rw [List.getD_eq_getElem?_getD, List.getElem?_map, List.getElem?_range hri2]
      rfl
    rw [h1, List.getD_eq_getElem?_getD, List.getElem?_map, List.getElem?_range hci2]
    exact weight_eq_specClassify radius ci ri (3/2)
  · exact bake2_eval

/-- Witness for C2 at radius 2, offset (ci, ri) = (1, 2). -/
theorem bake_path_quadrant_matches_spec_witness :
    (1 ≤ 2 ∧ 2 ≤ 2) ∧
      ((bake_path_quadrant 2).getD 2 []).getD 1 0 = specClassify 2 (3/2) 1 2 :=
  ⟨⟨by decide, by decide⟩,
    bake_path_quadrant_matches_spec.1 2 1 2 (by decide) (by decide)⟩

/-! ## Tile grid and path painter (`Game.update_path`)

The tile grid is a row-major list of rows of cell states: 0 = Full (unmown
grass), 1 = Mown, 2 = HalfMown.  `update_path` mirrors the nested loops of
the source: the enumerated template rows, the enumerated row entries, and
the four mirrored quadrant targets, each guarded by the bounds check and the
half-cell suppression rule. -/

abbrev Grid := List (List ℕ)

/-- Read the cell at row `y`, column `x` (0 when out of range). -/
def cellAt (g : Grid) (y x : ℕ) : ℕ := (g.getD y []).getD x 0

/-- Embedding of the assignment `tile_grid[y][x] = v` (no effect out of range:
the painter only performs it under its bounds guard). -/
def setCell (g : Grid) (y x v : ℕ) : Grid := g.set y ((g.getD y []).set x v)

/-- Embedding of the guarded write for one mirrored target `(y, x)` inside
`Game.update_path`: bounds check, then the half-cell suppression rule, then
the write of the template value `qc`. -/
def stampQuad (w h : ℕ) (player_cell_y : ℤ) (qc : ℕ) (g : Grid) (t : ℤ × ℤ) : Grid :=
  let y := t.1
  let x := t.2
  if min x y > -1 ∧ x < (w : ℤ) ∧ y < (h : ℤ) then
    if qc = 2 ∧ (cellAt g y.toNat x.toNat = 1 ∨ y > player_cell_y) then g
    else setCell g y.toNat x.toNat qc
  else g

/-- The four mirrored quadrant targets of one template entry, in source order:
(bottom, right), (bottom, left), (top, left), (top, right). -/
def quad_targets (player_cell_x player_cell_y : ℤ) (qx qy : ℕ) : List (ℤ × ℤ) :=
  [ (player_cell_y + qy, player_cell_x + qx),
    (player_cell_y + qy, player_cell_x - qx),
    (player_cell_y - qy, player_cell_x - qx),
    (player_cell_y - qy, player_cell_x + qx) ]

/-- Body of the innermost loop of `Game.update_path` for one enumerated
template entry `(qx, qc)` of row `qy`: skip empty entries, else stamp the
four mirrored targets. -/
def stamp_cell_entry (w h : ℕ) (player_cell_x player_cell_y : ℤ) (qy : ℕ)
    (g : Grid) (qxc : ℕ × ℕ) : Grid :=
  if qxc.2 = 0 then g
  else (quad_targets player_cell_x player_cell_y qxc.1 qy).foldl
    (stampQuad w h player_cell_y qxc.2) g

/-- One iteration of the outer loop of `Game.update_path`: process one
enumerated template row. -/
def stamp_row (w h : ℕ) (player_cell_x player_cell_y : ℤ)
    (g : Grid) (qyr : ℕ × List ℕ) : Grid :=
  qyr.2.enum.foldl (stamp_cell_entry w h player_cell_x player_cell_y qyr.1) g

/-- Embedding of `Game.update_path` given the player's cell position:
stamp the whole template into the grid. -/
def update_path (w h : ℕ) (tmpl : List (List ℕ)) (player_cell_x player_cell_y : ℤ)
    (g : Grid) : Grid :=
  tmpl.enum.foldl (stamp_row w h player_cell_x player_cell_y) g

/-- Number of Mown (value 1) cells of the grid. -/
def countMown (g : Grid) : ℕ := (g.map fun r => r.count 1).sum

/-- A sequence of painter ticks at the given player cell positions. -/
def run_path_ticks (w h : ℕ) (tmpl : List (List ℕ)) (ps : List (ℤ × ℤ))
    (g : Grid) : Grid :=
  ps.foldl (fun g p => update_path w h tmpl p.1 p.2 g) g

/-- Well-formed grid of width `w` and height `h`, as guaranteed by
`Game.generate_tile_grid` for the recorded `tile_grid_w`/`tile_grid_h`. -/
def WF (w h : ℕ) (g : Grid) : Prop := g.length = h ∧ ∀ r ∈ g, r.length = w

/-! ### List helper lemmas -/

theorem foldl_pres {α β : Type} (P : α → Prop) (f : α → β → α) :
    ∀ (l : List β) (a : α), (∀ b ∈ l, ∀ x, P x → P (f x b)) → P a → P (l.foldl f a) := by
  intro l
  induction l with
  | nil => intro a _ h; exact h
  | cons b t ih =>
      intro a hstep h
      exact ih _ (fun c hc x hx => hstep c (List.mem_cons_of_mem _ hc) x hx)
        (hstep b (List.mem_cons_self _ _) a h)

theorem foldl_mono {α β : Type} (m : α → ℕ) (f : α → β → α) :
    ∀ (l : List β) (a : α), (∀ x, ∀ b ∈ l, m x ≤ m (f x b)) → m a ≤ m (l.foldl f a) := by
  intro l
  induction l with
  | nil => intro a _; exact le_refl _
  | cons b t ih =>
      intro a hstep
      exact le_trans (hstep a b (List.mem_cons_self _ _))
        (ih _ (fun x c hc => hstep x c (List.mem_cons_of_mem _ hc)))

theorem mem_enumFrom_snd {α : Type} :
    ∀ (l : List α) (n : ℕ) (p : ℕ × α), p ∈ l.enumFrom n → p.2 ∈ l := by
  intro l
  induction l with
  | nil => intro n p h; simp [List.enumFrom] at h
  | cons a t ih =>
      intro n p h
      rw [List.enumFrom] at h
      rcases List.mem_cons.mp h with h | h
      · rw [h]; exact List.mem_cons_self _ _
      · exact List.mem_cons_of_mem _ (ih _ _ h)

theorem mem_enum_snd {α : Type} (l : List α) (p : ℕ × α) (h : p ∈ l.enum) : p.2 ∈ l :=
  mem_enumFrom_snd l 0 p h

theorem enumFrom_getD_mem {α : Type} (d : α) :
    ∀ (l : List α) (n i : ℕ), i < l.length → (n + i, l.getD i d) ∈ l.enumFrom n := by
  intro l
  induction l with
  | nil => intro n i h; simp at h
  | cons a t ih =>
      intro n i h
      cases i with
      | zero => simp [List.enumFrom]
      | succ m =>
          have h2 := ih (n + 1) m (by simpa using h)
          rw [List.enumFrom]
          apply List.mem_cons_of_mem
          have : n + 1 + m = n + (m + 1) := by omega
          rw [this] at h2
          simpa using h2

theorem enum_getD_mem {α : Type} (d : α) (l : List α) (i : ℕ) (h : i < l.length) :
    (i, l.getD i d) ∈ l.enum := by
  have := enumFrom_getD_mem d l 0 i h
  simpa [List.enum] using this

theorem list_getD_set_self {α : Type} (d v : α) :
    ∀ (l : List α) (i : ℕ), i < l.length → (l.set i v).getD i d = v := by
  intro l
  induction l with
  | nil => intro i h; simp at h
  | cons a t ih =>
      intro i h
      cases i with
      | zero => rfl
      | succ n => exact ih n (by simpa using h)

theorem list_getD_set_ne {α : Type} (d v : α) :
    ∀ (l : List α) (i j : ℕ), j ≠ i → (l.set i v).getD j d = l.getD j d := by
  intro l
  induction l with
  | nil => intro i j _; rfl
  | cons a t ih =>
      intro i j h
      cases i with
      | zero =>
          cases j with
          | zero => exact absurd rfl h
          | succ m => rfl
      | succ n =>
          cases j with
          | zero => rfl
          | succ m => exact ih n m (fun hh => h (by rw [hh]))

theorem list_set_of_length_le {α : Type} (v : α) :
    ∀ (l : List α) (i : ℕ), l.length ≤ i → l.set i v = l := by
  intro l
  induction l with
  | nil => intro i _; rfl
  | cons a t ih =>
      intro i h
      cases i with
      | zero => simp at h
      | succ n => simp only [List.set]; rw [ih n (by simpa using h)]

/-! ### Cell-level lemmas about `setCell` -/

theorem list_set_getD_self {α : Type} (d : α) :
    ∀ (l : List α) (i : ℕ), l.set i (l.getD i d) = l := by
  intro l
  induction l with
  | nil => intro i; rfl
  | cons a t ih =>
      intro i
      cases i with
      | zero => rfl
      | succ n => simp only [List.set, List.getD_cons_succ]; rw [ih n]

theorem cellAt_setCell_same (g : Grid) (y x v : ℕ)
    (hy : y < g.length) (hx : x < (g.getD y []).length) :
    cellAt (setCell g y x v) y x = v := by
  unfold cellAt setCell
  rw [list_getD_set_self [] _ g y hy, list_getD_set_self 0 v _ x hx]

theorem setCell_val_or_id (g : Grid) (y x v : ℕ) :
    cellAt (setCell g y x v) y x = v ∨ setCell g y x v = g := by
  by_cases hy : y < g.length
  · by_cases hx : x < (g.getD y []).length
    · exact Or.inl (cellAt_setCell_same g y x v hy hx)
    · right
      unfold setCell
      rw [list_set_of_length_le v _ x (le_of_not_lt hx)]
      exact list_set_getD_self [] g y
  · right
    unfold setCell
    rw [list_set_of_length_le _ g y (le_of_not_lt hy)]

theorem cellAt_setCell_other (g : Grid) (y x v y2 x2 : ℕ)
    (h : y2 ≠ y ∨ x2 ≠ x) : cellAt (setCell g y x v) y2 x2 = cellAt g y2 x2 := by
  unfold cellAt setCell
  rcases h with h | h
  · rw [list_getD_set_ne [] _ g y y2 h]
  · by_cases hy : y2 = y
    · subst hy
      by_cases hlen : y2 < g.length
      · rw [list_getD_set_self [] _ g y2 hlen, list_getD_set_ne 0 v _ x x2 h]
      · rw [list_set_of_length_le _ g y2 (le_of_not_lt hlen)]
    · rw [list_getD_set_ne [] _ g y y2 hy]

theorem setCell_length (g : Grid) (y x v : ℕ) : (setCell g y x v).length = g.length := by
  unfold setCell; exact List.length_set g y _

theorem WF_setCell (w h : ℕ) (g : Grid) (y x v : ℕ) (hwf : WF w h g) :
    WF w h (setCell g y x v) := by
  obtain ⟨hlen, hrow⟩ := hwf
  by_cases hy : y < g.length
  · refine ⟨by rw [setCell_length, hlen], ?_⟩
    intro r hr
    unfold setCell at hr
    rcases List.mem_or_eq_of_mem_set hr with hr | hr
    · exact hrow r hr
    · subst hr
      rw [List.length_set]
      have hg : g.getD y [] = g[y] := List.getD_eq_getElem g [] hy
      rw [hg]
      exact hrow _ (List.getElem_mem hy)
  · have hid : setCell g y x v = g := by
      unfold setCell
      exact list_set_of_length_le _ g y (le_of_not_lt hy)
    rw [hid]
    exact ⟨hlen, hrow⟩

/-! ### Template value range -/

/-- All values of a template are cell classifications 0, 1 or 2. -/
def TmplOk (tmpl : List (List ℕ)) : Prop :=
  ∀ r ∈ tmpl, ∀ v ∈ r, v = 0 ∨ v = 1 ∨ v = 2

theorem weight_point_in_circle_range (point center : ℤ × ℤ) (radius : ℤ) (θ : ℚ) :
    weight_point_in_circle point center radius θ = 0 ∨
      weight_point_in_circle point center radius θ = 1 ∨
      weight_point_in_circle point center radius θ = 2 := by
  unfold weight_point_in_circle
  dsimp only
  split_ifs <;> simp

theorem bake_TmplOk (radius : ℕ) : TmplOk (bake_path_quadrant radius) := by
  intro r hr v hv
  unfold bake_path_quadrant at hr
  rcases List.mem_map.mp hr with ⟨ri, _, hfr⟩
  rw [← hfr] at hv
  rcases List.mem_map.mp hv with ⟨ci, _, hfv⟩
  rw [← hfv]
  exact weight_point_in_circle_range _ _ _ _

/-! ### Preservation of Mown cells -/

theorem stampQuad_pres_mown (w h : ℕ) (pcy : ℤ) (qc : ℕ) (g : Grid) (t : ℤ × ℤ)
    (hqc : qc = 1 ∨ qc = 2) (y x : ℕ) (hm : cellAt g y x = 1) :
    cellAt (stampQuad w h pcy qc g t) y x = 1 := by
  unfold stampQuad
  dsimp only
  split_ifs with h1 h2
  · exact hm
  · by_cases hsame : y = t.1.toNat ∧ x = t.2.toNat
    · obtain ⟨hy, hx⟩ := hsame
      subst hy; subst hx
      rcases hqc with hqc | hqc
      · subst hqc
        rcases setCell_val_or_id g t.1.toNat t.2.toNat 1 with hv | hv
        · exact hv
        · rw [hv]; exact hm
      · subst hqc
        exact absurd ⟨rfl, Or.inl hm⟩ h2
    · rw [cellAt_setCell_other]
      · exact hm
      · rcases Decidable.not_and_iff_or_not.mp hsame with hy | hx
        · exact Or.inl hy
        · exact Or.inr hx
  · exact hm

theorem stamp_cell_entry_pres_mown (w h : ℕ) (pcx pcy : ℤ) (qy : ℕ) (g : Grid)
    (qxc : ℕ × ℕ) (hok : qxc.2 = 0 ∨ qxc.2 = 1 ∨ qxc.2 = 2) (y x : ℕ)
    (hm : cellAt g y x = 1) :
    cellAt (stamp_cell_entry w h pcx pcy qy g qxc) y x = 1 := by
  unfold stamp_cell_entry
  split_ifs with h0
  · exact hm
  · refine foldl_pres (fun g2 => cellAt g2 y x = 1) _ _ g ?_ hm
    intro t _ g3 h3
    refine stampQuad_pres_mown w h pcy qxc.2 g3 t ?_ y x h3
    rcases hok with hok | hok
    · exact absurd hok h0
    · exact hok

theorem stamp_row_pres_mown (w h : ℕ) (pcx pcy : ℤ) (g : Grid) (qyr : ℕ × List ℕ)
    (hok : ∀ v ∈ qyr.2, v = 0 ∨ v = 1 ∨ v = 2) (y x : ℕ) (hm : cellAt g y x = 1) :
    cellAt (stamp_row w h pcx pcy g qyr) y x = 1 := by
  unfold stamp_row
  refine foldl_pres (fun g2 => cellAt g2 y x = 1) _ _ g ?_ hm
  intro qxc hq g2 h2
  exact stamp_cell_entry_pres_mown w h pcx pcy qyr.1 g2 qxc
    (hok qxc.2 (mem_enum_snd _ _ hq)) y x h2

theorem update_path_pres_mown (w h : ℕ) (tmpl : List (List ℕ)) (pcx pcy : ℤ)
    (g : Grid) (hok : TmplOk tmpl) (y x : ℕ) (hm : cellAt g y x = 1) :
    cellAt (update_path w h tmpl pcx pcy g) y x = 1 := by
  unfold update_path
  refine foldl_pres (fun g2 => cellAt g2 y x = 1) _ _ g ?_ hm
  intro qyr hq g2 h2
  exact stamp_row_pres_mown w h pcx pcy g2 qyr (hok qyr.2 (mem_enum_snd _ _ hq)) y x h2

/-! ### Monotone Mown count -/

theorem count_one_set_one (r : List ℕ) : ∀ x : ℕ, r.count 1 ≤ (r.set x 1).count 1 := by
  induction r with
  | nil => intro x; simp
  | cons a t ih =>
      intro x
      cases x with
      | zero =>
          rw [List.set_cons_zero]
          simp only [List.count_cons, beq_iff_eq]
          split_ifs <;> omega
      | succ n =>
          rw [List.set_cons_succ]
          simp only [List.count_cons]
          exact Nat.add_le_add_right (ih n) _

theorem count_one_set_ne (v : ℕ) (hv : v ≠ 1) :
    ∀ (r : List ℕ) (x : ℕ), r.getD x 0 ≠ 1 → (r.set x v).count 1 = r.count 1 := by
  intro r
  induction r with
  | nil => intro x _; rfl
  | cons a t ih =>
      intro x hx
      cases x with
      | zero =>
          simp only [List.getD_cons_zero] at hx
          rw [List.set_cons_zero]
          simp [List.count_cons, hv, hx]
      | succ n =>
          simp only [List.getD_cons_succ] at hx
          rw [List.set_cons_succ]
          simp only [List.count_cons]
          rw [ih n hx]

theorem countMown_cons (r : List ℕ) (t : Grid) :
    countMown (r :: t) = r.count 1 + countMown t := by
  simp [countMown]

theorem countMown_setCell_one :
    ∀ (g : Grid) (y x : ℕ), countMown g ≤ countMown (setCell g y x 1) := by
  intro g
  induction g with
  | nil => intro y x; exact le_refl _
  | cons r t ih =>
      intro y x
      cases y with
      | zero =>
          show countMown (r :: t) ≤ countMown ((r.set x 1) :: t)
          rw [countMown_cons, countMown_cons]
          exact Nat.add_le_add_right (count_one_set_one r x) _
      | succ n =>
          show countMown (r :: t) ≤ countMown (r :: setCell t n x 1)
          rw [countMown_cons, countMown_cons]
          exact Nat.add_le_add_left (ih n x) _

theorem countMown_setCell_two :
    ∀ (g : Grid) (y x : ℕ), cellAt g y x ≠ 1 → countMown (setCell g y x 2) = countMown g := by
  intro g
  induction g with
  | nil => intro y x _; rfl
  | cons r t ih =>
      intro y x hne
      cases y with
      | zero =>
          show countMown ((r.set x 2) :: t) = countMown (r :: t)
          rw [countMown_cons, countMown_cons]
          have hx : r.getD x 0 ≠ 1 := hne
          rw [count_one_set_ne 2 (by decide) r x hx]
      | succ n =>
          show countMown (r :: setCell t n x 2) = countMown (r :: t)
          rw [countMown_cons, countMown_cons]
          have hx : cellAt t n x ≠ 1 := hne
          rw [ih n x hx]

theorem countMown_stampQuad_le (w h : ℕ) (pcy : ℤ) (qc : ℕ) (g : Grid) (t : ℤ × ℤ)
    (hqc : qc = 1 ∨ qc = 2) : countMown g ≤ countMown (stampQuad w h pcy qc g t) := by
  unfold stampQuad
  dsimp only
  split_ifs with h1 h2
  · exact le_refl _
  · rcases hqc with hqc | hqc
    · subst hqc
      exact countMown_setCell_one g t.1.toNat t.2.toNat
    · subst hqc
      have hne : cellAt g t.1.toNat t.2.toNat ≠ 1 := by
        intro hcell
        exact h2 ⟨rfl, Or.inl hcell⟩
      rw [countMown_setCell_two g t.1.toNat t.2.toNat hne]
  · exact le_refl _

theorem countMown_stamp_cell_entry_le (w h : ℕ) (pcx pcy : ℤ) (qy : ℕ) (g : Grid)
    (qxc : ℕ × ℕ) (hok : qxc.2 = 0 ∨ qxc.2 = 1 ∨ qxc.2 = 2) :
    countMown g ≤ countMown (stamp_cell_entry w h pcx pcy qy g qxc) := by
  unfold stamp_cell_entry
  split_ifs with h0
  · exact le_refl _
  · refine foldl_mono countMown _ _ g ?_
    intro g2 t _
    refine countMown_stampQuad_le w h pcy qxc.2 g2 t ?_
    rcases hok with hok | hok
    · exact absurd hok h0
    · exact hok

theorem countMown_stamp_row_le (w h : ℕ) (pcx pcy : ℤ) (g : Grid) (qyr : ℕ × List ℕ)
    (hok : ∀ v ∈ qyr.2, v = 0 ∨ v = 1 ∨ v = 2) :
    countMown g ≤ countMown (stamp_row w h pcx pcy g qyr) := by
  unfold stamp_row
  refine foldl_mono countMown _ _ g ?_
  intro g2 qxc hq
  exact countMown_stamp_cell_entry_le w h pcx pcy qyr.1 g2 qxc
    (hok qxc.2 (mem_enum_snd _ _ hq))

theorem countMown_update_path_le (w h : ℕ) (tmpl : List (List ℕ)) (pcx pcy : ℤ)
    (g : Grid) (hok : TmplOk tmpl) :
    countMown g ≤ countMown (update_path w h tmpl pcx pcy g) := by
  unfold update_path
  refine foldl_mono countMown _ _ g ?_
  intro g2 qyr hq
  exact countMown_stamp_row_le w h pcx pcy g2 qyr (hok qyr.2 (mem_enum_snd _ _ hq))

/-- C1: the painter never regresses a Mown cell (for the game's baked
template at any radius, any grid and any player cell position), and over any
sequence of painter ticks the count of Mown cells is non-decreasing. -/
theorem update_path_monotone :
    (∀ (radius w h : ℕ) (pcx pcy : ℤ) (g : Grid) (y x : ℕ),
      cellAt g y x = 1 →
        cellAt (update_path w h (bake_path_quadrant radius) pcx pcy g) y x = 1)
    ∧ (∀ (radius w h : ℕ) (ps : List (ℤ × ℤ)) (g : Grid),
        countMown g ≤ countMown (run_path_ticks w h (bake_path_quadrant radius) ps g)) := by
  constructor
  · intro radius w h pcx pcy g y x hm
    exact update_path_pres_mown w h _ pcx pcy g (bake_TmplOk radius) y x hm
  · intro radius w h ps g
    unfold run_path_ticks
    refine foldl_mono countMown _ _ g ?_
    intro g2 p _
    exact countMown_update_path_le w h _ p.1 p.2 g2 (bake_TmplOk radius)

/-- Witness for C1 part one: a 3-by-3 grid whose corner cell is Mown keeps
that cell Mown across a painter tick at the grid center. -/
theorem update_path_monotone_witness :
    cellAt [[1, 0, 0], [0, 0, 0], [0, 0, 0]] 0 0 = 1 ∧
      cellAt (update_path 3 3 (bake_path_quadrant 2) 1 1
        [[1, 0, 0], [0, 0, 0], [0, 0, 0]]) 0 0 = 1 :=
  ⟨by decide, update_path_monotone.1 2 3 3 1 1 _ 0 0 (by decide)⟩

/-! ### Single-stamp write effects (claim C3) -/

/-- The bounds guard of `Game.update_path` for a target `(y, x) = (t.1, t.2)`:
`min(x, y) > -1 and x < tile_grid_w and y < tile_grid_h`. -/
def InB (w h : ℕ) (t : ℤ × ℤ) : Prop :=
  min t.2 t.1 > -1 ∧ t.2 < (w : ℤ) ∧ t.1 < (h : ℤ)

instance (w h : ℕ) (t : ℤ × ℤ) : Decidable (InB w h t) := by
  unfold InB; infer_instance

theorem WF_stampQuad (w h : ℕ) (pcy : ℤ) (qc : ℕ) (g : Grid) (t : ℤ × ℤ)
    (hwf : WF w h g) : WF w h (stampQuad w h pcy qc g t) := by
  unfold stampQuad
  dsimp only
  split_ifs
  · exact hwf
  · exact WF_setCell w h g _ _ qc hwf
  · exact hwf

theorem WF_stamp_cell_entry (w h : ℕ) (pcx pcy : ℤ) (qy : ℕ) (g : Grid)
    (qxc : ℕ × ℕ) (hwf : WF w h g) :
    WF w h (stamp_cell_entry w h pcx pcy qy g qxc) := by
  unfold stamp_cell_entry
  split_ifs
  · exact hwf
  · exact foldl_pres (WF w h) _ _ g (fun t _ g2 h2 => WF_stampQuad w h pcy _ g2 t h2) hwf

theorem WF_stamp_row (w h : ℕ) (pcx pcy : ℤ) (g : Grid) (qyr : ℕ × List ℕ)
    (hwf : WF w h g) : WF w h (stamp_row w h pcx pcy g qyr) := by
  unfold stamp_row
  exact foldl_pres (WF w h) _ _ g
    (fun q _ g2 h2 => WF_stamp_cell_entry w h pcx pcy qyr.1 g2 q h2) hwf

/-- Stamping a Full template value writes 1 at an in-bounds target. -/
theorem stampQuad_writes_one (w h : ℕ) (pcy : ℤ) (g : Grid) (t : ℤ × ℤ)
    (hwf : WF w h g) (hin : InB w h t) :
    cellAt (stampQuad w h pcy 1 g t) t.1.toNat t.2.toNat = 1 := by
  obtain ⟨hmin, hxw, hyh⟩ := hin
  unfold stampQuad
  dsimp only
  rw [if_pos ⟨hmin, hxw, hyh⟩, if_neg (by simp)]
  have hy0 : (0 : ℤ) ≤ t.1 := by
    have := lt_min_iff.mp hmin
    omega
  have hyl : t.1.toNat < g.length := by
    rw [hwf.1]
    omega
  apply cellAt_setCell_same g _ _ 1 hyl
  have hrow : g.getD t.1.toNat [] = g[t.1.toNat] := List.getD_eq_getElem g [] hyl
  rw [hrow, hwf.2 _ (List.getElem_mem hyl)]
  have hx0 : (0 : ℤ) ≤ t.2 := by
    have := lt_min_iff.mp hmin
    omega
  omega

theorem quads_foldl_writes_one (w h : ℕ) (pcy : ℤ) :
    ∀ (l : List (ℤ × ℤ)) (g : Grid), WF w h g → ∀ t ∈ l, InB w h t →
      cellAt (l.foldl (stampQuad w h pcy 1) g) t.1.toNat t.2.toNat = 1 := by
  intro l
  induction l with
  | nil => intro g _ t ht; simp at ht
  | cons a l2 ih =>
      intro g hwf t ht hin
      rcases List.mem_cons.mp ht with ht | ht
      · subst ht
        rw [List.foldl_cons]
        refine foldl_pres (fun g2 => cellAt g2 t.1.toNat t.2.toNat = 1) _ _ _ ?_
          (stampQuad_writes_one w h pcy g t hwf hin)
        intro b _ g2 h2
        exact stampQuad_pres_mown w h pcy 1 g2 b (Or.inl rfl) _ _ h2
      · rw [List.foldl_cons]
        exact ih _ (WF_stampQuad w h pcy 1 g a hwf) t ht hin

/-- Processing a template entry holding value 1 writes 1 at each of its four
in-bounds mirrored targets. -/
theorem stamp_cell_entry_writes_one (w h : ℕ) (pcx pcy : ℤ) (qy qx : ℕ) (g : Grid)
    (hwf : WF w h g) (t : ℤ × ℤ) (ht : t ∈ quad_targets pcx pcy qx qy)
    (hin : InB w h t) :
    cellAt (stamp_cell_entry w h pcx pcy qy g (qx, 1)) t.1.toNat t.2.toNat = 1 := by
  unfold stamp_cell_entry
  rw [if_neg (by simp)]
  exact quads_foldl_writes_one w h pcy _ g hwf t ht hin

/-- Processing a whole template row writes 1 at the in-bounds mirrored
targets of each Full entry of that row. -/
theorem stamp_row_writes_one (w h : ℕ) (pcx pcy : ℤ) (g : Grid) (qy qx : ℕ)
    (row : List ℕ) (hrow : ∀ v ∈ row, v = 0 ∨ v = 1 ∨ v = 2)
    (hwf : WF w h g) (hval : row.getD qx 0 = 1)
    (t : ℤ × ℤ) (ht : t ∈ quad_targets pcx pcy qx qy) (hin : InB w h t) :
    cellAt (stamp_row w h pcx pcy g (qy, row)) t.1.toNat t.2.toNat = 1 := by
  have hqx : qx < row.length := by
    by_contra hge
    rw [List.getD_eq_default row 0 (le_of_not_lt hge)] at hval
    exact absurd hval (by decide)
  have hmem : (qx, (1 : ℕ)) ∈ row.enum := by
    have := enum_getD_mem 0 row qx hqx
    rw [hval] at this
    exact this
  obtain ⟨e1, e2, hsplit⟩ := List.append_of_mem hmem
  unfold stamp_row
  dsimp only
  rw [hsplit, List.foldl_append, List.foldl_cons]
  refine foldl_pres (fun g2 => cellAt g2 t.1.toNat t.2.toNat = 1) _ _ _ ?_ ?_
  · intro qxc hq g2 h2
    apply stamp_cell_entry_pres_mown w h pcx pcy qy g2 qxc ?_ _ _ h2
    apply hrow
    apply mem_enum_snd row
    rw [hsplit]
    exact List.mem_append_right _ (List.mem_cons_of_mem _ hq)
  · have hwf1 : WF w h (e1.foldl (stamp_cell_entry w h pcx pcy qy) g) :=
      foldl_pres (WF w h) _ _ g
        (fun q _ g2 h2 => WF_stamp_cell_entry w h pcx pcy qy g2 q h2) hwf
    exact stamp_cell_entry_writes_one w h pcx pcy qy qx _ hwf1 t ht hin

/-- The painter writes 1 at every in-bounds mirrored target of every Full
entry of the template. -/
theorem update_path_writes_one (w h : ℕ) (tmpl : List (List ℕ)) (pcx pcy : ℤ)
    (g : Grid) (hok : TmplOk tmpl) (hwf : WF w h g) (qy qx : ℕ)
    (hval : (tmpl.getD qy []).getD qx 0 = 1)
    (t : ℤ × ℤ) (ht : t ∈ quad_targets pcx pcy qx qy) (hin : InB w h t) :
    cellAt (update_path w h tmpl pcx pcy g) t.1.toNat t.2.toNat = 1 := by
  have hqy : qy < tmpl.length := by
    by_contra hge
    rw [List.getD_eq_default tmpl [] (le_of_not_lt hge), List.getD_nil] at hval
    exact absurd hval (by decide)
  have hmem : (qy, tmpl.getD qy []) ∈ tmpl.enum := enum_getD_mem [] tmpl qy hqy
  obtain ⟨e1, e2, hsplit⟩ := List.append_of_mem hmem
  unfold update_path
  rw [hsplit, List.foldl_append, List.foldl_cons]
  refine foldl_pres (fun g2 => cellAt g2 t.1.toNat t.2.toNat = 1) _ _ _ ?_ ?_
  · intro qyr hq g2 h2
    apply stamp_row_pres_mown w h pcx pcy g2 qyr ?_ _ _ h2
    apply hok
    apply mem_enum_snd tmpl
    rw [hsplit]
    exact List.mem_append_right _ (List.mem_cons_of_mem _ hq)
  · have hwf1 : WF w h (e1.foldl (stamp_row w h pcx pcy) g) :=
      foldl_pres (WF w h) _ _ g
        (fun q _ g2 h2 => WF_stamp_row w h pcx pcy g2 q h2) hwf
    refine stamp_row_writes_one w h pcx pcy _ qy qx (tmpl.getD qy []) ?_ hwf1 hval t ht hin
    intro v hv
    have hmemrow : tmpl.getD qy [] ∈ tmpl := by
      rw [List.getD_eq_getElem tmpl [] hqy]
      exact List.getElem_mem hqy
    exact hok _ hmemrow v hv

/-- Invariant for the half-cell suppression rule: relative to the grid `g0`
the stamp started from, a Mown cell stays Mown, and a cell can only show
HalfMown if it already did, or it was not Mown and its row is not strictly
below the player's row. -/
def HalfInv (g0 : Grid) (y x : ℕ) (pcy : ℤ) (g2 : Grid) : Prop :=
  (cellAt g0 y x = 1 → cellAt g2 y x = 1) ∧
  (cellAt g2 y x = 2 →
    cellAt g0 y x = 2 ∨ (cellAt g0 y x ≠ 1 ∧ (y : ℤ) ≤ pcy))

theorem stampQuad_halfinv (w h : ℕ) (pcy : ℤ) (qc : ℕ) (hqc : qc = 1 ∨ qc = 2)
    (g0 : Grid) (y x : ℕ) (g2 : Grid) (t : ℤ × ℤ)
    (hR : HalfInv g0 y x pcy g2) : HalfInv g0 y x pcy (stampQuad w h pcy qc g2 t) := by
  constructor
  · intro h1
    exact stampQuad_pres_mown w h pcy qc g2 t hqc y x (hR.1 h1)
  · intro h2
    unfold stampQuad at h2
    dsimp only at h2
    by_cases hg : min t.2 t.1 > -1 ∧ t.2 < (w : ℤ) ∧ t.1 < (h : ℤ)
    · rw [if_pos hg] at h2
      by_cases hsup : qc = 2 ∧ (cellAt g2 t.1.toNat t.2.toNat = 1 ∨ t.1 > pcy)
      · rw [if_pos hsup] at h2
        exact hR.2 h2
      · rw [if_neg hsup] at h2
        by_cases hsame : y = t.1.toNat ∧ x = t.2.toNat
        · obtain ⟨hy, hx⟩ := hsame
          rcases hqc with hqc | hqc
          · subst hqc
            rcases setCell_val_or_id g2 t.1.toNat t.2.toNat 1 with hv | hv
            · rw [hy, hx, hv] at h2
              exact absurd h2 (by decide)
            · rw [hv] at h2
              exact hR.2 h2
          · subst hqc
            push_neg at hsup
            have hsup2 := hsup rfl
            push_neg at hsup2
            obtain ⟨hne2, hle⟩ := hsup2
            right
            refine ⟨?_, ?_⟩
            · intro h0
              have hcur := hR.1 h0
              rw [hy, hx] at hcur
              exact hne2 hcur
            · have hy0 : (0 : ℤ) ≤ t.1 := by
                have := lt_min_iff.mp hg.1
                omega
              rw [hy]
              omega
        · rw [cellAt_setCell_other g2 _ _ _ y x ?_] at h2
          · exact hR.2 h2
          · rcases Decidable.not_and_iff_or_not.mp hsame with hy | hx
            · exact Or.inl hy
            · exact Or.inr hx
    · rw [if_neg hg] at h2
      exact hR.2 h2

theorem stamp_cell_entry_halfinv (w h : ℕ) (pcx pcy : ℤ) (qy : ℕ) (qxc : ℕ × ℕ)
    (hok : qxc.2 = 0 ∨ qxc.2 = 1 ∨ qxc.2 = 2) (g0 : Grid) (y x : ℕ) (g2 : Grid)
    (hR : HalfInv g0 y x pcy g2) :
    HalfInv g0 y x pcy (stamp_cell_entry w h pcx pcy qy g2 qxc) := by
  unfold stamp_cell_entry
  split_ifs with h0
  · exact hR
  · refine foldl_pres (HalfInv g0 y x pcy) _ _ g2 ?_ hR
    intro t _ g3 h3
    refine stampQuad_halfinv w h pcy qxc.2 ?_ g0 y x g3 t h3
    rcases hok with hok | hok
    · exact absurd hok h0
    · exact hok

theorem stamp_row_halfinv (w h : ℕ) (pcx pcy : ℤ) (qyr : ℕ × List ℕ)
    (hok : ∀ v ∈ qyr.2, v = 0 ∨ v = 1 ∨ v = 2) (g0 : Grid) (y x : ℕ) (g2 : Grid)
    (hR : HalfInv g0 y x pcy g2) :
    HalfInv g0 y x pcy (stamp_row w h pcx pcy g2 qyr) := by
  unfold stamp_row
  refine foldl_pres (HalfInv g0 y x pcy) _ _ g2 ?_ hR
  intro qxc hq g3 h3
  exact stamp_cell_entry_halfinv w h pcx pcy qyr.1 qxc
    (hok qxc.2 (mem_enum_snd _ _ hq)) g0 y x g3 h3

theorem update_path_halfinv (w h : ℕ) (tmpl : List (List ℕ)) (pcx pcy : ℤ)
    (hok : TmplOk tmpl) (g : Grid) (y x : ℕ) :
    HalfInv g y x pcy (update_path w h tmpl pcx pcy g) := by
  unfold update_path
  refine foldl_pres (HalfInv g y x pcy) _ _ g ?_ ⟨fun h1 => h1, fun h2 => Or.inl h2⟩
  intro qyr hq g2 h2
  exact stamp_row_halfinv w h pcx pcy qyr (hok qyr.2 (mem_enum_snd _ _ hq)) g y x g2 h2

/-- C3: during one painter stamp, a cell ends up HalfMown only if it either
already was, or it was not Mown and its row is at most the player's row
(a Half value is never written over Mown nor strictly below the player);
and a Full template value is written to every in-bounds mirrored target. -/
theorem update_path_stamp_rules (radius w h : ℕ) (g : Grid) (pcx pcy : ℤ)
    (hwf : WF w h g) :
    (∀ y x : ℕ,
      cellAt (update_path w h (bake_path_quadrant radius) pcx pcy g) y x = 2 →
        cellAt g y x = 2 ∨ (cellAt g y x ≠ 1 ∧ (y : ℤ) ≤ pcy))
    ∧ (∀ qy qx : ℕ, ((bake_path_quadrant radius).getD qy []).getD qx 0 = 1 →
        ∀ t ∈ quad_targets pcx pcy qx qy, InB w h t →
          cellAt (update_path w h (bake_path_quadrant radius) pcx pcy g)
            t.1.toNat t.2.toNat = 1) := by
  constructor
  · intro y x h2
    exact (update_path_halfinv w h _ pcx pcy (bake_TmplOk radius) g y x).2 h2
  · intro qy qx hval t ht hin
    exact update_path_writes_one w h _ pcx pcy g (bake_TmplOk radius) hwf qy qx hval t ht hin

instance (w h : ℕ) (g : Grid) : Decidable (WF w h g) := by
  unfold WF
  infer_instance

/-- Witness for C3 on a well-formed 3-by-3 all-Full grid: the Full template
entry (0, 0) of the radius-2 bake paints the player cell (1, 1) Mown. -/
theorem update_path_stamp_rules_witness :
    WF 3 3 [[0, 0, 0], [0, 0, 0], [0, 0, 0]] ∧
      cellAt (update_path 3 3 (bake_path_quadrant 2) 1 1
        [[0, 0, 0], [0, 0, 0], [0, 0, 0]]) 1 1 = 1 :=
  ⟨by decide,
    (update_path_stamp_rules 2 3 3 _ 1 1 (by decide)).2 0 0
      (by rw [bake2_eval]; decide) (1, 1) (by decide) (by decide)⟩

/-! ## Player update (`Player.update`)

The per-tick player update is embedded as a pure state transformer.  The
only non-exact ingredients of the source are the trigonometric values
`cos(radians(-angle))` and `sin(radians(-angle))` (the same pair drives both
the probe rotation `Vector2.rotate(-angle)` and the movement step), and the
integer center of the player's `globalRect`; these are taken as oracle
parameters of the environment, so every theorem below holds for all of their
values.  The trailing `update_path` call of the source is the painter
embedded above and mutates only the tile grid. -/

structure PlayerState where
  x : ℚ
  y : ℚ
  speed : ℚ
  movement_allowed : Bool
  money : ℚ
  power_used : ℤ
  current_power_consumption : ℤ
  game_over : Bool
deriving DecidableEq

structure PlayerEnv where
  /-- Oracle for `cos(radians(-angle))`, also the cosine used by
  `Vector2.rotate(-angle)` on the probe offsets. -/
  cos_neg_angle : ℚ
  /-- Oracle for `sin(radians(-angle))`. -/
  sin_neg_angle : ℚ
  /-- The frame-delta scale `frame_delta` of this tick. -/
  frame_delta : ℚ
  /-- Integer x of `globalRect.center`. -/
  center_x : ℤ
  /-- Integer y of `globalRect.center`. -/
  center_y : ℤ
  tile_grid : List (List ℕ)
  /-- `textures.base_tile_size`, 10 in the game. -/
  base_tile_size : ℚ
  /-- Play-field width (700 in the game). -/
  frame_w : ℚ
  /-- Play-field height (700 in the game). -/
  frame_h : ℚ
  current_cost : ℚ
  money_limit : ℚ
deriving DecidableEq

/-- The two discrete power-draw levels of the game. -/
def normal_power_consumption : ℤ := 800

def slow_power_consumption : ℤ := 2400

/-- Pygame `Vector2.rotate` by an angle whose cosine is `c` and sine is `s`. -/
def vec_rotate (c s : ℚ) (p : ℚ × ℚ) : ℚ × ℚ :=
  (p.1 * c - p.2 * s, p.1 * s + p.2 * c)

/-- Embedding of `cell_from_screenspace`: componentwise `int(n * (1 / tile_size))`. -/
def cell_from_screenspace (coords : ℚ × ℚ) (tile_size : ℚ) : ℤ × ℤ :=
  (pyTrunc (coords.1 * (1 / tile_size)), pyTrunc (coords.2 * (1 / tile_size)))

/-- The forward movement probes of the player (`path_probes`): only the
front-middle probe (30, 0) is active in the source. -/
def path_probes : List (ℚ × ℚ) := [(30, 0)]

/-- Embedding of `Player.offset_point` composed with the grid read of the
probe loop: rotate the probe by -angle, translate by the player center,
convert to a cell, and read `tile_grid[cell[1]][cell[0]]` with Python
indexing; IndexError is `none`. -/
def probe_read (env : PlayerEnv) (probe : ℚ × ℚ) : Option ℕ :=
  let gv := vec_rotate env.cos_neg_angle env.sin_neg_angle probe
  let cell := cell_from_screenspace
    (gv.1 + (env.center_x : ℚ), gv.2 + (env.center_y : ℚ)) env.base_tile_size
  match pyListGet env.tile_grid cell.2 with
  | none => none
  | some row => pyListGet row cell.1

/-- The `is_slowed_down` flag of one tick: some probe read a cell holding 1. -/
def slowed_probe (env : PlayerEnv) : Bool :=
  path_probes.any fun p => decide (probe_read env p = some 1)

/-- The power-consumption two-level switch of the slowdown branch
(source lines: only an exact match of the current level is rewritten). -/
def next_power_consumption (slowed : Bool) (cpc : ℤ) : ℤ :=
  if slowed then
    (if cpc = normal_power_consumption then slow_power_consumption else cpc)
  else
    (if cpc = slow_power_consumption then normal_power_consumption else cpc)

/-- The per-tick movement step `(step_x, step_y)`: the scaled speed (halved
when slowed) along `(cos(radians(-angle)), sin(radians(-angle)))`. -/
def move_step (env : PlayerEnv) (st : PlayerState) : ℚ × ℚ :=
  let speed := pyRound3 st.speed
  let real_speed := (if slowed_probe env then speed / 2 else speed) * env.frame_delta
  (env.cos_neg_angle * real_speed, env.sin_neg_angle * real_speed)

/-- Embedding of `Player.update` (one tick): slowdown probe, power draw,
movement with per-axis bounds rejection, money accumulation and the
game-over check. -/
def player_update (env : PlayerEnv) (st : PlayerState) : PlayerState :=
  if st.movement_allowed then
    let speed := pyRound3 st.speed
    let cpc := next_power_consumption (slowed_probe env) st.current_power_consumption
    let power_used := st.power_used +
      pyTrunc ((cpc : ℚ) / (TARGET_FRAMERATE : ℚ) * env.frame_delta)
    let step_x := (move_step env st).1
    let step_y := (move_step env st).2
    let x := if (env.center_x : ℚ) + step_x < env.frame_w ∧ 0 < (env.center_x : ℚ) + step_x
      then st.x + step_x else st.x
    let y := if (env.center_y : ℚ) + step_y < env.frame_h ∧ 0 < (env.center_y : ℚ) + step_y
      then st.y + step_y else st.y
    let money := st.money + env.current_cost * (cpc : ℚ)
    let game_over := if money ≥ env.money_limit then true else st.game_over
    { st with
      x := x, y := y, speed := speed, money := money, power_used := power_used,
      current_power_consumption := cpc, game_over := game_over }
  else st

theorem player_update_x (env : PlayerEnv) (st : PlayerState)
    (hmv : st.movement_allowed = true) :
    (player_update env st).x =
      if (env.center_x : ℚ) + (move_step env st).1 < env.frame_w ∧
          0 < (env.center_x : ℚ) + (move_step env st).1
        then st.x + (move_step env st).1 else st.x := by
  simp [player_update, hmv]

theorem player_update_y (env : PlayerEnv) (st : PlayerState)
    (hmv : st.movement_allowed = true) :
    (player_update env st).y =
      if (env.center_y : ℚ) + (move_step env st).2 < env.frame_h ∧
          0 < (env.center_y : ℚ) + (move_step env st).2
        then st.y + (move_step env st).2 else st.y := by
  simp [player_update, hmv]

/-- C5: movement is resolved per axis: an axis whose step would take the
player center out of the play-field bounds is left completely unchanged for
the tick (not clamped), while an axis whose step stays strictly inside the
bounds advances by exactly its step. -/
theorem movement_axis_reject (env : PlayerEnv) (st : PlayerState)
    (hmv : st.movement_allowed = true) :
    (¬ ((env.center_x : ℚ) + (move_step env st).1 < env.frame_w ∧
        0 < (env.center_x : ℚ) + (move_step env st).1) →
      (player_update env st).x = st.x)
    ∧ (((env.center_x : ℚ) + (move_step env st).1 < env.frame_w ∧
        0 < (env.center_x : ℚ) + (move_step env st).1) →
      (player_update env st).x = st.x + (move_step env st).1)
    ∧ (¬ ((env.center_y : ℚ) + (move_step env st).2 < env.frame_h ∧
        0 < (env.center_y : ℚ) + (move_step env st).2) →
      (player_update env st).y = st.y)
    ∧ (((env.center_y : ℚ) + (move_step env st).2 < env.frame_h ∧
        0 < (env.center_y : ℚ) + (move_step env st).2) →
      (player_update env st).y = st.y + (move_step env st).2) := by
  refine ⟨?_, ?_, ?_, ?_⟩ <;> intro hcond
  · rw [player_update_x env st hmv, if_neg hcond]
  · rw [player_update_x env st hmv, if_pos hcond]
  · rw [player_update_y env st hmv, if_neg hcond]
  · rw [player_update_y env st hmv, if_pos hcond]

/-- Environment of the C5 witness: facing a 3-4-5 direction with the player
center at (698, 100), one step from the right edge of the 700-wide field. -/
def c5_env : PlayerEnv :=
  { cos_neg_angle := 3/5, sin_neg_angle := 4/5, frame_delta := 1,
    center_x := 698, center_y := 100, tile_grid := [], base_tile_size := 10,
    frame_w := 700, frame_h := 700, current_cost := 1/1000, money_limit := 5000 }

def c5_st : PlayerState :=
  { x := 650, y := 80, speed := 5, movement_allowed := true, money := 0,
    power_used := 0, current_power_consumption := 800, game_over := false }

theorem pyListGet_nil {α : Type} (i : ℤ) : pyListGet ([] : List α) i = none := by
  unfold pyListGet
  split_ifs <;> simp

theorem probe_read_empty (env : PlayerEnv) (hgrid : env.tile_grid = []) (p : ℚ × ℚ) :
    probe_read env p = none := by
  unfold probe_read
  dsimp only
  rw [hgrid, pyListGet_nil]

theorem slowed_probe_empty_grid (env : PlayerEnv) (hgrid : env.tile_grid = []) :
    slowed_probe env = false := by
  unfold slowed_probe path_probes
  rw [List.any_cons, List.any_nil, probe_read_empty env hgrid]
  simp

theorem c5_move_step : move_step c5_env c5_st = (3, 4) := by
  rw [move_step, slowed_probe_empty_grid c5_env rfl]
  show ((3 : ℚ)/5 * (pyRound3 5 * 1), (4 : ℚ)/5 * (pyRound3 5 * 1)) = (3, 4)
  have h5 : pyRound3 5 = 5 := by
    rw [pyRound3, round_eq]
    norm_num
  rw [h5]
  norm_num

/-- Witness for C5: the x step (3) would cross the right bound from center
698, so x is unchanged; the y step (4) stays inside, so y advances by 4. -/
theorem movement_axis_reject_witness :
    (player_update c5_env c5_st).x = c5_st.x ∧
      (player_update c5_env c5_st).y = c5_st.y + 4 := by
  have h := movement_axis_reject c5_env c5_st rfl
  constructor
  · apply h.1
    rw [c5_move_step]
    show ¬ ((698 : ℚ) + 3 < 700 ∧ (0 : ℚ) < 698 + 3)
    norm_num
  · have h4 := h.2.2.2 (by
      rw [c5_move_step]
      show (100 : ℚ) + 4 < 700 ∧ (0 : ℚ) < 100 + 4
      norm_num)
    rw [c5_move_step] at h4
    exact h4

theorem player_update_cpc (env : PlayerEnv) (st : PlayerState)
    (hmv : st.movement_allowed = true) :
    (player_update env st).current_power_consumption =
      next_power_consumption (slowed_probe env) st.current_power_consumption := by
  simp [player_update, hmv]

theorem player_update_power_used (env : PlayerEnv) (st : PlayerState)
    (hmv : st.movement_allowed = true) :
    (player_update env st).power_used = st.power_used +
      pyTrunc (((next_power_consumption (slowed_probe env)
          st.current_power_consumption : ℤ) : ℚ) /
        (TARGET_FRAMERATE : ℚ) * env.frame_delta) := by
  simp [player_update, hmv]

theorem player_update_money (env : PlayerEnv) (st : PlayerState)
    (hmv : st.movement_allowed = true) :
    (player_update env st).money = st.money + env.current_cost *
      ((next_power_consumption (slowed_probe env)
        st.current_power_consumption : ℤ) : ℚ) := by
  simp [player_update, hmv]

/-- C4 as amended: the slowed flag of a tick is set iff some forward probe
cell read yields Mown (value 1) — not the unmown Full (0) of the claim — and
when both axis steps stay in bounds the position advances along
(cos, sin) of -angle by the speed halved exactly when that flag is set. -/
theorem slowdown_on_mown (env : PlayerEnv) (st : PlayerState)
    (hmv : st.movement_allowed = true)
    (hx : (env.center_x : ℚ) + (move_step env st).1 < env.frame_w ∧
      0 < (env.center_x : ℚ) + (move_step env st).1)
    (hy : (env.center_y : ℚ) + (move_step env st).2 < env.frame_h ∧
      0 < (env.center_y : ℚ) + (move_step env st).2) :
    (slowed_probe env = true ↔ ∃ p ∈ path_probes, probe_read env p = some 1)
    ∧ (player_update env st).x = st.x + env.cos_neg_angle *
        ((if slowed_probe env then pyRound3 st.speed / 2 else pyRound3 st.speed) *
          env.frame_delta)
    ∧ (player_update env st).y = st.y + env.sin_neg_angle *
        ((if slowed_probe env then pyRound3 st.speed / 2 else pyRound3 st.speed) *
          env.frame_delta) := by
  refine ⟨?_, ?_, ?_⟩
  · simp [slowed_probe, List.any_eq_true]
  · rw [player_update_x env st hmv, if_pos hx]
    rfl
  · rw [player_update_y env st hmv, if_pos hy]
    rfl

/-- Environment of the C4 counterexample: angle 0, player center (35, 35),
every tile of the 7-by-7 grid Full (0), so the forward probe cell (6, 3)
is in the unmown classification. -/
def c4_env : PlayerEnv :=
  { cos_neg_angle := 1, sin_neg_angle := 0, frame_delta := 1,
    center_x := 35, center_y := 35,
    tile_grid := [[0,0,0,0,0,0,0],[0,0,0,0,0,0,0],[0,0,0,0,0,0,0],[0,0,0,0,0,0,0],
                  [0,0,0,0,0,0,0],[0,0,0,0,0,0,0],[0,0,0,0,0,0,0]],
    base_tile_size := 10, frame_w := 700, frame_h := 700,
    current_cost := 1/1000, money_limit := 5000 }

/-- The same environment except the probe cell (6, 3) holds Mown (1). -/
def c4w_env : PlayerEnv :=
  { c4_env with
    tile_grid := [[0,0,0,0,0,0,0],[0,0,0,0,0,0,0],[0,0,0,0,0,0,0],[0,0,0,0,0,0,1],
                  [0,0,0,0,0,0,0],[0,0,0,0,0,0,0],[0,0,0,0,0,0,0]] }

def c4_st : PlayerState :=
  { x := 30, y := 30, speed := 5, movement_allowed := true, money := 0,
    power_used := 0, current_power_consumption := 800, game_over := false }

theorem c4_probe_read : probe_read c4_env (30, 0) = some 0 := by
  unfold probe_read vec_rotate cell_from_screenspace c4_env
  dsimp only
  have h1 : pyTrunc (((30:ℚ) * 1 - 0 * 0 + ((35:ℤ) : ℚ)) * (1 / 10)) = 6 := by
    rw [pyTrunc]
    norm_num
  have h2 : pyTrunc (((30:ℚ) * 0 + 0 * 1 + ((35:ℤ) : ℚ)) * (1 / 10)) = 3 := by
    rw [pyTrunc]
    norm_num
  rw [h1, h2]
  rfl

theorem c4w_probe_read : probe_read c4w_env (30, 0) = some 1 := by
  unfold probe_read vec_rotate cell_from_screenspace c4w_env c4_env
  dsimp only
  have h1 : pyTrunc (((30:ℚ) * 1 - 0 * 0 + ((35:ℤ) : ℚ)) * (1 / 10)) = 6 := by
    rw [pyTrunc]
    norm_num
  have h2 : pyTrunc (((30:ℚ) * 0 + 0 * 1 + ((35:ℤ) : ℚ)) * (1 / 10)) = 3 := by
    rw [pyTrunc]
    norm_num
  rw [h1, h2]
  rfl

theorem c4_not_slowed : slowed_probe c4_env = false := by
  unfold slowed_probe path_probes
  rw [List.any_cons, List.any_nil, c4_probe_read]
  simp

theorem c4w_slowed : slowed_probe c4w_env = true := by
  unfold slowed_probe path_probes
  rw [List.any_cons, List.any_nil, c4w_probe_read]
  simp

theorem pyRound3_five : pyRound3 5 = 5 := by
  rw [pyRound3, round_eq]
  norm_num

theorem c4_move_step : move_step c4_env c4_st = (5, 0) := by
  rw [move_step, c4_not_slowed]
  show ((1 : ℚ) * (pyRound3 5 * 1), (0 : ℚ) * (pyRound3 5 * 1)) = (5, 0)
  rw [pyRound3_five]
  norm_num

/-- C4 counterexample: the forward probe lands on an unmown Full cell (0),
yet the slowed flag is not set: the player advances by the full base speed 5
(not 5/2) and the power draw stays at the normal level. -/
theorem slowdown_claim_counterexample :
    probe_read c4_env (30, 0) = some 0
    ∧ slowed_probe c4_env = false
    ∧ (player_update c4_env c4_st).x = c4_st.x + 5
    ∧ (5 : ℚ) ≠ 5 / 2
    ∧ (player_update c4_env c4_st).current_power_consumption =
        normal_power_consumption := by
  refine ⟨c4_probe_read, c4_not_slowed, ?_, by norm_num, ?_⟩
  · have hbx : (c4_env.center_x : ℚ) + (((5 : ℚ), (0 : ℚ)) : ℚ × ℚ).1 < c4_env.frame_w ∧
        0 < (c4_env.center_x : ℚ) + (((5 : ℚ), (0 : ℚ)) : ℚ × ℚ).1 := by
      norm_num [c4_env]
    rw [player_update_x c4_env c4_st rfl, c4_move_step, if_pos hbx]
  · rw [player_update_cpc c4_env c4_st rfl, c4_not_slowed]
    rfl

theorem c4w_move_step : move_step c4w_env c4_st = (5/2, 0) := by
  rw [move_step, c4w_slowed]
  show ((1 : ℚ) * (pyRound3 5 / 2 * 1), (0 : ℚ) * (pyRound3 5 / 2 * 1)) = (5/2, 0)
  rw [pyRound3_five]
  norm_num

/-- Witness for the amended C4: with the probe cell Mown, the tick is slowed
and the player advances by the halved speed 5/2. -/
theorem slowdown_on_mown_witness :
    slowed_probe c4w_env = true ∧
      (player_update c4w_env c4_st).x = c4_st.x + c4w_env.cos_neg_angle *
        ((if slowed_probe c4w_env then pyRound3 c4_st.speed / 2
          else pyRound3 c4_st.speed) * c4w_env.frame_delta) := by
  refine ⟨c4w_slowed, ?_⟩
  refine (slowdown_on_mown c4w_env c4_st rfl ?_ ?_).2.1
  · rw [c4w_move_step]
    norm_num [c4w_env, c4_env]
  · rw [c4w_move_step]
    norm_num [c4w_env, c4_env]

/-! ## Power accounting (claims C7, C10) -/

def c7_env : PlayerEnv :=
  { cos_neg_angle := 1, sin_neg_angle := 0, frame_delta := 1/2,
    center_x := 350, center_y := 350, tile_grid := [], base_tile_size := 10,
    frame_w := 700, frame_h := 700, current_cost := 1/1000, money_limit := 5000 }

/-- C7 as amended: the per-tick `power_used` increment is the Python `int`
truncation (toward zero) of current_power_consumption / TARGET_FRAMERATE *
frame_delta (with the post-hysteresis consumption of this tick), not its
nearest-integer rounding. -/
theorem power_used_truncation (env : PlayerEnv) (st : PlayerState)
    (hmv : st.movement_allowed = true) :
    (player_update env st).power_used = st.power_used +
      pyTrunc (((next_power_consumption (slowed_probe env)
          st.current_power_consumption : ℤ) : ℚ) /
        (TARGET_FRAMERATE : ℚ) * env.frame_delta) :=
  player_update_power_used env st hmv

/-- Witness for the amended C7 at frame delta 1/2 and normal power draw. -/
theorem power_used_truncation_witness :
    c4_st.movement_allowed = true ∧
      (player_update c7_env c4_st).power_used = c4_st.power_used +
        pyTrunc (((next_power_consumption (slowed_probe c7_env)
            c4_st.current_power_consumption : ℤ) : ℚ) /
          (TARGET_FRAMERATE : ℚ) * c7_env.frame_delta) :=
  ⟨rfl, power_used_truncation c7_env c4_st rfl⟩

/-- C7 counterexample: at frame delta 1/2 with the normal 800 W draw the
tick adds int(800/60 * 1/2) = 6 to power_used, while the nearest-integer
rounding the claim states would add round(20/3) = 7. -/
theorem power_round_counterexample :
    (player_update c7_env c4_st).power_used = c4_st.power_used + 6
    ∧ round ((800 : ℚ) / (TARGET_FRAMERATE : ℚ) * (1/2)) = 7
    ∧ (6 : ℤ) ≠ 7 := by
  refine ⟨?_, ?_, by decide⟩
  · rw [player_update_power_used c7_env c4_st rfl, slowed_probe_empty_grid c7_env rfl]
    have hc : next_power_consumption false c4_st.current_power_consumption = 800 := rfl
    rw [hc]
    have ht : pyTrunc (((800 : ℤ) : ℚ) / (TARGET_FRAMERATE : ℚ) * c7_env.frame_delta) = 6 := by
      rw [pyTrunc]
      norm_num [TARGET_FRAMERATE, c7_env]
    rw [ht]
  · rw [round_eq]
    norm_num [TARGET_FRAMERATE]

structure EconomyState where
  player_speed : ℚ
  current_power_consumption : ℤ
  current_cost : ℚ
deriving DecidableEq

def normal_cost : ℚ := 1/1000

def powered_up_cost : ℚ := -(1/1000)

/-- Embedding of the economy side effects of `Powerup.trigger` by powerup
type (0 Speed, 1 Rebate, 2 Stun); the Bool is the enemy's stunned flag.
The source uses three independent ifs on `self.type`; since the tested
values are distinct this chain is equivalent. -/
def powerup_trigger (ptype : ℕ) (econ : EconomyState) (enemy_stunned : Bool) :
    EconomyState × Bool :=
  if ptype = 0 then
    ({ econ with player_speed := 10, current_power_consumption := 3000 }, enemy_stunned)
  else if ptype = 1 then
    ({ econ with current_cost := powered_up_cost }, enemy_stunned)
  else if ptype = 2 then (econ, true)
  else (econ, enemy_stunned)

/-- Embedding of the expiry branch of `Game.tick_active_powerups` for an
expired powerup id: reset the corresponding benefit (speed and power draw
for Speed, cost for Rebate, enemy stun flag for Stun). -/
def powerup_expire_reset (idx : ℕ) (econ : EconomyState) (enemy_stunned : Bool) :
    EconomyState × Bool :=
  if idx = 0 then
    ({ econ with player_speed := 5, current_power_consumption := normal_power_consumption },
      enemy_stunned)
  else if idx = 1 then ({ econ with current_cost := normal_cost }, enemy_stunned)
  else if idx = 2 then (econ, false)
  else (econ, enemy_stunned)

/-- C10: a power draw that is neither the normal 800 nor the slow 2400 level
(such as the 3000 set by the Speed powerup trigger) is left unchanged by the
player update's slowdown logic, whether or not the tick is slowed; the
powerup-expiry reset for the Speed powerup is what returns it to the normal
level. -/
theorem power_consumption_off_levels (env : PlayerEnv) (st : PlayerState)
    (hmv : st.movement_allowed = true)
    (h1 : st.current_power_consumption ≠ normal_power_consumption)
    (h2 : st.current_power_consumption ≠ slow_power_consumption) :
    (player_update env st).current_power_consumption = st.current_power_consumption
    ∧ (∀ (econ : EconomyState) (b : Bool),
        (powerup_trigger 0 econ b).1.current_power_consumption = 3000)
    ∧ (∀ (econ : EconomyState) (b : Bool),
        (powerup_expire_reset 0 econ b).1.current_power_consumption =
          normal_power_consumption) := by
  refine ⟨?_, fun econ b => rfl, fun econ b => rfl⟩
  rw [player_update_cpc env st hmv]
  unfold next_power_consumption
  rcases Bool.eq_false_or_eq_true (slowed_probe env) with hb | hb <;>
    rw [hb] <;> simp [h1, h2]

def c10_st : PlayerState :=
  { x := 30, y := 30, speed := 10, movement_allowed := true, money := 0,
    power_used := 0, current_power_consumption := 3000, game_over := false }

/-- Witness for C10 with the Speed-powerup draw of 3000. -/
theorem power_consumption_off_levels_witness :
    c10_st.movement_allowed = true ∧
      c10_st.current_power_consumption ≠ normal_power_consumption ∧
      c10_st.current_power_consumption ≠ slow_power_consumption ∧
      (player_update c7_env c10_st).current_power_consumption =
        c10_st.current_power_consumption :=
  ⟨rfl, by decide, by decide,
    (power_consumption_off_levels c7_env c10_st rfl (by decide) (by decide)).1⟩

/-! ## Economy termination (claim C6)

Continuous normal-speed movement with no slowdown: an empty probe region
(so the slow branch is never taken), cost 0.001, normal draw 800, limit
5000, starting from money 0. -/

def c6_env : PlayerEnv :=
  { cos_neg_angle := 1, sin_neg_angle := 0, frame_delta := 1,
    center_x := 350, center_y := 350, tile_grid := [], base_tile_size := 10,
    frame_w := 700, frame_h := 700, current_cost := 1/1000, money_limit := 5000 }

def c6_start : PlayerState :=
  { x := 350, y := 350, speed := 5, movement_allowed := true, money := 0,
    power_used := 0, current_power_consumption := 800, game_over := false }

/-- The player state after `n` ticks of the C6 scenario. -/
def c6_state (n : ℕ) : PlayerState := (player_update c6_env)^[n] c6_start

theorem c6_step (st : PlayerState) (hmv : st.movement_allowed = true)
    (hc : st.current_power_consumption = 800) :
    (player_update c6_env st).money = st.money + 4/5
    ∧ (player_update c6_env st).current_power_consumption = 800
    ∧ (player_update c6_env st).movement_allowed = true
    ∧ (player_update c6_env st).game_over =
        (if st.money + 4/5 ≥ 5000 then true else st.game_over) := by
  have hslow : slowed_probe c6_env = false := slowed_probe_empty_grid c6_env rfl
  have hnext : next_power_consumption (slowed_probe c6_env)
      st.current_power_consumption = 800 := by
    rw [hslow, hc]
    rfl
  have hmoney : (player_update c6_env st).money = st.money + 4/5 := by
    rw [player_update_money c6_env st hmv, hnext]
    show st.money + 1/1000 * ((800 : ℤ) : ℚ) = st.money + 4/5
    norm_num
  refine ⟨hmoney, ?_, ?_, ?_⟩
  · rw [player_update_cpc c6_env st hmv, hnext]
  · simp [player_update, hmv]
  · have hgo : (player_update c6_env st).game_over =
        (if (player_update c6_env st).money ≥ c6_env.money_limit then true
          else st.game_over) := by
      simp only [player_update, hmv, if_true]
    rw [hmoney] at hgo
    exact hgo

theorem c6_invariant (n : ℕ) :
    (c6_state n).movement_allowed = true
    ∧ (c6_state n).current_power_consumption = 800
    ∧ (c6_state n).money = (n : ℚ) * (4/5) := by
  induction n with
  | zero => exact ⟨rfl, rfl, by simp [c6_state, c6_start]⟩
  | succ m ih =>
      obtain ⟨hmv, hc, hm⟩ := ih
      have hst : c6_state (m + 1) = player_update c6_env (c6_state m) := by
        rw [c6_state, Function.iterate_succ_apply']
        rfl
      have hstep := c6_step (c6_state m) hmv hc
      refine ⟨?_, ?_, ?_⟩ <;> rw [hst]
      · exact hstep.2.2.1
      · exact hstep.2.1
      · rw [hstep.1, hm]
        push_cast
        ring

/-- C6: money grows by current_cost * current_power_consumption = 0.8 every
tick of the scenario; after 6250 = ceil(5000 / 0.8) ticks (and not before)
it reaches the 5000 limit and the game-over transition fires. -/
theorem economy_game_over :
    (∀ n : ℕ, (c6_state (n + 1)).money =
      (c6_state n).money + c6_env.current_cost * ((normal_power_consumption : ℤ) : ℚ))
    ∧ (c6_state 6249).money < c6_env.money_limit
    ∧ (c6_state 6250).money = 5000
    ∧ (c6_state 6250).money ≥ c6_env.money_limit
    ∧ (c6_state 6250).game_over = true
    ∧ ⌈(5000 : ℚ) / ((1/1000) * 800)⌉ = 6250 := by
  have hstate : ∀ n : ℕ, c6_state (n + 1) = player_update c6_env (c6_state n) := by
    intro n
    rw [c6_state, Function.iterate_succ_apply']
    rfl
  have hmoney : ∀ n : ℕ, (c6_state n).money = (n : ℚ) * (4/5) :=
    fun n => (c6_invariant n).2.2
  refine ⟨?_, ?_, ?_, ?_, ?_, ?_⟩
  · intro n
    obtain ⟨hmv, hc, _⟩ := c6_invariant n
    rw [hstate n, (c6_step (c6_state n) hmv hc).1]
    show _ = _ + (1/1000 : ℚ) * ((800 : ℤ) : ℚ)
    norm_num
  · rw [hmoney 6249]
    show (6249 : ℚ) * (4/5) < 5000
    norm_num
  · rw [hmoney 6250]
    norm_num
  · rw [hmoney 6250]
    show (6250 : ℚ) * (4/5) ≥ 5000
    norm_num
  · obtain ⟨hmv, hc, hm⟩ := c6_invariant 6249
    rw [hstate 6249, (c6_step (c6_state 6249) hmv hc).2.2.2, hm, if_pos]
    show (6249 : ℚ) * (4/5) + 4/5 ≥ 5000
    norm_num
  · norm_num

/-! ## Kick sequence (`Game.kick_player`, `Enemy.update` — claim C8)

The kick loop runs `for i in range(TARGET_FRAMERATE)` and on each step sets
the player position to `v_player.slerp(end_pos, i / TARGET_FRAMERATE)`.
The spherical interpolation (pygame `Vector2.slerp`) is a float/trig
function; it is abstracted as an oracle `interp : ℚ → ℚ × ℚ` with
`interp t = v_player.slerp(end_pos, t)`, so the loop facts below hold for
every interpolation.  The random spin increments of the angle and the
drawing calls of the loop body touch no state the claim mentions. -/

/-- Embedding of the interpolation loop of `Game.kick_player`: the final
player position together with the number of executed loop steps. -/
def kick_loop (interp : ℚ → ℚ × ℚ) (start_pos : ℚ × ℚ) : (ℚ × ℚ) × ℕ :=
  (List.range TARGET_FRAMERATE).foldl
    (fun acc i => (interp ((i : ℚ) / (TARGET_FRAMERATE : ℚ)), acc.2 + 1))
    (start_pos, 0)

structure EnemyState where
  kick_charge_seconds_elapsed : ℚ
  kicking : Bool
deriving DecidableEq

def kick_charge_duration : ℚ := 1/2

/-- Embedding of the charge/kick resolution block at the end of
`Enemy.update` (runs when a charge is pending): either keep charging, or —
once the charge duration has elapsed — re-check the distance, invoke the
kick when the target is within twice the kick distance, and reset the
kicking state.  The Bool reports whether `kick_player` was invoked. -/
def enemy_charge_phase (frame_delta : ℚ) (rel_x rel_y kick_distance : ℚ)
    (st : EnemyState) : EnemyState × Bool :=
  if st.kick_charge_seconds_elapsed > -1 then
    if st.kick_charge_seconds_elapsed < kick_charge_duration then
      ({ st with kick_charge_seconds_elapsed :=
          st.kick_charge_seconds_elapsed + frame_delta / (TARGET_FRAMERATE : ℚ) }, false)
    else
      ({ kick_charge_seconds_elapsed := -1, kicking := false },
        decide (max |rel_x| |rel_y| ≤ kick_distance * 2))
  else (st, false)

/-- C8 as amended: the kick loop always terminates after exactly
TARGET_FRAMERATE = 60 steps and leaves the player at the interpolation
evaluated at t = 59/60 — one step short of the end position — and the
enemy's kicking flag is reset to false when the charge resolution that
invoked the kick completes. -/
theorem kick_sequence_behavior :
    (∀ (interp : ℚ → ℚ × ℚ) (p0 : ℚ × ℚ),
      kick_loop interp p0 = (interp (((59 : ℕ) : ℚ) / ((60 : ℕ) : ℚ)), 60))
    ∧ (∀ (fd rx ry kd : ℚ) (st : EnemyState),
        st.kick_charge_seconds_elapsed > -1 →
        ¬ st.kick_charge_seconds_elapsed < kick_charge_duration →
        ((enemy_charge_phase fd rx ry kd st).1).kicking = false) := by
  constructor
  · intro interp p0
    rfl
  · intro fd rx ry kd st h1 h2
    unfold enemy_charge_phase
    rw [if_pos h1, if_neg h2]

/-- Pygame slerp between the collinear, equally-directed positions (100, 0)
and (200, 0): the angle between the vectors is 0 and slerp reduces to the
linear interpolation of the magnitude along the shared direction. -/
def slerp_collinear_100_200 (t : ℚ) : ℚ × ℚ := ((1 - t) * 100 + t * 200, 0)

/-- C8 counterexample: kicking the player from (100, 0) toward the computed
end position (200, 0), the loop leaves the player at (595/3, 0) — the
interpolation at t = 59/60 — which is not the end position (200, 0). -/
theorem kick_end_position_counterexample :
    (kick_loop slerp_collinear_100_200 (100, 0)).1 =
      ((595/3 : ℚ), (0 : ℚ))
    ∧ ((595/3 : ℚ), (0 : ℚ)) ≠ (((200 : ℚ), (0 : ℚ))) := by
  constructor
  · show slerp_collinear_100_200 (((59 : ℕ) : ℚ) / ((60 : ℕ) : ℚ)) = _
    rw [slerp_collinear_100_200]
    norm_num
  · intro h
    have h1 : (595/3 : ℚ) = 200 := congrArg Prod.fst h
    norm_num at h1

/-- Witness for the amended C8 charge-resolution conjunct: a fully charged
enemy (elapsed 1/2 at duration 1/2) ends not kicking. -/
theorem kick_sequence_behavior_witness :
    ((1/2 : ℚ) > -1 ∧ ¬ ((1/2 : ℚ) < kick_charge_duration)) ∧
      ((enemy_charge_phase 1 0 0 40
        { kick_charge_seconds_elapsed := 1/2, kicking := true }).1).kicking = false :=
  ⟨⟨by norm_num, by rw [kick_charge_duration]; norm_num⟩,
    kick_sequence_behavior.2 1 0 0 40 _ (by norm_num)
      (by rw [kick_charge_duration]; norm_num)⟩

/-! ## Batch powerup cull (`Game.tick_objects` — claim C9)

`tick_objects` first updates every object while recording the list indices
of Powerups whose `active` flag is false, then deletes those recorded
indices one after another with `del objects[idx]`.  The update phase is
abstracted by taking the post-update objects list (with its final `active`
flags) as input; the cull phase is embedded exactly, including the Python
IndexError (`none`) on a stale out-of-range index. -/

inductive GObj where
  | powerup (active : Bool)
  | other (id : ℕ)
deriving DecidableEq

def is_inactive_powerup : GObj → Bool
  | GObj.powerup active => !active
  | GObj.other _ => false

/-- The cull of `Game.tick_objects`: collect the indices of inactive
Powerups in enumeration order, then delete them sequentially. -/
def tick_objects_cull (objects : List GObj) : Option (List GObj) :=
  let to_cull := (objects.enum.filter fun p => is_inactive_powerup p.2).map Prod.fst
  to_cull.foldl (fun acc idx => acc.bind fun l => pyDelAt l idx) (some objects)

/-- C9 failing inputs: with two Powerups deactivating in the same tick the
stale second index deletes the wrong object (leaving an inactive Powerup in
the list and removing a live object), or raises IndexError when the second
Powerup is last; a single deactivation behaves as the claim states. -/
theorem tick_objects_cull_bug :
    tick_objects_cull
        [GObj.other 0, GObj.powerup false, GObj.powerup false, GObj.other 1]
      = some [GObj.other 0, GObj.powerup false]
    ∧ some [GObj.other 0, GObj.powerup false] ≠
        some [GObj.other 0, GObj.other 1]
    ∧ tick_objects_cull [GObj.other 0, GObj.powerup false, GObj.powerup false] = none
    ∧ tick_objects_cull [GObj.other 0, GObj.powerup false, GObj.other 1]
      = some [GObj.other 0, GObj.other 1] := by
  refine ⟨by decide, by decide, by decide, by decide⟩

end Powerlawn
